import Mathlib

/-!
Verification development for the Butlarr media-library manager.

The repository ships the frontend of the system (React pages, the API and
WebSocket service layer, the setup wizard) together with a design document for
the scan pipeline.  The pure logic of the frontend sources is embedded here
directly; backend components that the design document describes but that are
not present in the sources (scan orchestrator, library sync collector,
duplicate clustering engine, bad-item scorer, progress broadcaster) are
modelled from the specification text, and each such definition is marked
`Modelled from the spec:` in its doc comment.

Machine arithmetic is embedded over `Nat`/`Int`/`Rat`; the JavaScript
`Math.log`/`Math.pow` computation of `formatBytes` is embedded with exact
arithmetic (`Nat.log`), the idealised value of the floating-point expression.
-/

namespace Butlarr

/-! ## `formatBytes` (src/frontend/src/pages/Storage.jsx lines 5-11,
     identical copy in src/unnamed/part_002 lines 5-11)

```js
function formatBytes(bytes) {
  if (!bytes) return "0 B"
  const k = 1024
  const sizes = ["B", "KB", "MB", "GB", "TB"]
  const i = Math.floor(Math.log(bytes) / Math.log(k))
  return parseFloat((bytes / Math.pow(k, i)).toFixed(1)) + " " + sizes[i]
}
```

The input is `Option ℕ`: `none` stands for JavaScript `null`/`undefined`.
`Math.floor (Math.log bytes / Math.log 1024)` for a positive integer input is
embedded exactly as `Nat.log 1024 bytes`.  The produced string is represented
structurally as a numeric value (the result of `toFixed(1)`/`parseFloat`,
i.e. rounding to tenths) together with the unit suffix; an out-of-range
`sizes[i]` access (JavaScript `undefined`) is represented by `none`. -/

def formatSizes : List String := ["B", "KB", "MB", "GB", "TB"]

/-- The unit index `i = Math.floor(Math.log(bytes) / Math.log(1024))`,
under exact (real-valued) logarithm semantics, for a positive integer. -/
def unitIndex (bytes : ℕ) : ℕ := Nat.log 1024 bytes

/-- Rounding performed by `(x).toFixed(1)` followed by `parseFloat`: round to the nearest tenth
(half away from zero; the inputs here are nonnegative, so half up). -/
def roundTenths (q : ℚ) : ℚ := (⌊q * 10 + 1 / 2⌋ : ℚ) / 10

/-- A formatted size: the numeric part and the unit suffix of the returned
string produced by the concatenation. -/
structure FormattedSize where
  value : ℚ
  suffix : String
deriving DecidableEq, Repr

/-- Embedding of `formatBytes`.  `none` as a result marks the
`sizes[i]`-out-of-range case, where the JavaScript function would produce
the string `"... undefined"`. -/
def formatBytes (bytes : Option ℕ) : Option FormattedSize :=
  match bytes with
  | none => some ⟨0, "B"⟩
  | some b =>
      if b = 0 then some ⟨0, "B"⟩
      else
        (formatSizes.get? (unitIndex b)).map
          (fun s => ⟨roundTenths ((b : ℚ) / 1024 ^ unitIndex b), s⟩)

theorem unitIndex_le_four {b : ℕ} (hb : 0 < b) (hlt : b < 1024 ^ 5) :
    unitIndex b ≤ 4 := by
  have h := (Nat.lt_pow_iff_log_lt (b := 1024) (by norm_num) (Nat.pos_iff_ne_zero.mp hb)).mp hlt
  exact Nat.lt_succ_iff.mp h

theorem five_le_unitIndex {b : ℕ} (hge : 1024 ^ 5 ≤ b) : 5 ≤ unitIndex b := by
  have hb : b ≠ 0 := by positivity
  exact (Nat.pow_le_iff_le_log (b := 1024) (by norm_num) hb).mp hge

theorem roundTenths_mul_ten_den (q : ℚ) : (roundTenths q * 10).den = 1 := by
  have : roundTenths q * 10 = ((⌊q * 10 + 1 / 2⌋ : ℤ) : ℚ) := by
    unfold roundTenths
    field_simp
  rw [this]
  exact Rat.den_intCast _

theorem formatBytes_pos {b : ℕ} (hb : 0 < b) (hlt : b < 1024 ^ 5) :
    ∃ r, formatBytes (some b) = some r ∧ r.suffix ∈ formatSizes ∧
      (r.value * 10).den = 1 := by
  have hi : unitIndex b ≤ 4 := unitIndex_le_four hb hlt
  have hlen : unitIndex b < formatSizes.length := by
    simpa [formatSizes] using Nat.lt_succ_of_le hi
  refine ⟨⟨roundTenths ((b : ℚ) / 1024 ^ unitIndex b),
    formatSizes.get ⟨unitIndex b, hlen⟩⟩, ?_, ?_, ?_⟩
  · simp [formatBytes, hb.ne', List.get?_eq_get hlen]
  · exact List.get_mem _ _ _
  · exact roundTenths_mul_ten_den _

theorem formatBytes_overflow {b : ℕ} (hge : 1024 ^ 5 ≤ b) :
    formatSizes.get? (unitIndex b) = none ∧ formatBytes (some b) = none := by
  have hb : b ≠ 0 := by positivity
  have hi : 5 ≤ unitIndex b := five_le_unitIndex hge
  have hnone : formatSizes.get? (unitIndex b) = none := by
    rw [List.get?_eq_none]
    simpa [formatSizes] using hi
  have h5 : formatSizes.length ≤ unitIndex b := by simpa [formatSizes] using hi
  exact ⟨hnone, by simp [formatBytes, hb, h5]⟩

/-- Claim C10: `formatBytes` returns the string `0 B` for `null`, `undefined`
or zero input; for every positive byte count strictly below `1024 ^ 5` it
returns a value rounded to at most one decimal place (ten times the value is
an integer) followed by one of the suffixes `B`, `KB`, `MB`, `GB`, `TB`; at or
above `1024 ^ 5` the computed unit index leaves the `sizes` array, the suffix
lookup is out of range, and no well-formed string is produced. -/
theorem formatBytes_claim :
    (formatBytes none = some ⟨0, "B"⟩ ∧ formatBytes (some 0) = some ⟨0, "B"⟩)
    ∧ (∀ b : ℕ, 0 < b → b < 1024 ^ 5 →
        ∃ r, formatBytes (some b) = some r ∧ r.suffix ∈ formatSizes ∧
          (r.value * 10).den = 1)
    ∧ (∀ b : ℕ, 1024 ^ 5 ≤ b →
        formatSizes.get? (unitIndex b) = none ∧ formatBytes (some b) = none) :=
  ⟨⟨rfl, rfl⟩, fun _ hb hlt => formatBytes_pos hb hlt,
    fun _ hge => formatBytes_overflow hge⟩

/-- Witness for C10 at the concrete inputs `2048` and `1024 ^ 5`. -/
theorem formatBytes_claim_witness :
    (∃ r, formatBytes (some 2048) = some r ∧ r.suffix ∈ formatSizes ∧
      (r.value * 10).den = 1)
    ∧ formatBytes (some (1024 ^ 5)) = none :=
  ⟨formatBytes_claim.2.1 2048 (by norm_num) (by norm_num),
    (formatBytes_claim.2.2 (1024 ^ 5) (le_refl _)).2⟩

/-! ## `WebSocketService` (src/frontend/src/services/api.js lines 74-193)

The service keeps `connections : Map<channel, WebSocket>` and
`reconnectAttempts : Map<channel, number>`, with `maxReconnectAttempts = 10`
and `reconnectDelay = 1000`.  `connect` returns the stored connection when the
channel is already present; otherwise it creates a new `WebSocket` and stores
it.  The `onclose` handler deletes the connection and, when the close was not
clean and fewer than `maxReconnectAttempts` attempts have been made,
schedules `connect` again after `reconnectDelay * 2 ^ attempts` milliseconds.
`onopen` resets the attempt counter of the channel to zero.

JavaScript `Map`s keyed by channel name are embedded as association lists;
a `WebSocket` object is identified by a numeric id drawn from a counter. -/

/-- Embeds `Map.get` / `Map.has` on an association list keyed by channel name. -/
def chanFind : List (String × ℕ) → String → Option ℕ
  | [], _ => none
  | (k, v) :: rest, c => if k = c then some v else chanFind rest c

/-- Embeds `Map.set`: replace the existing binding, otherwise append. -/
def chanSet : List (String × ℕ) → String → ℕ → List (String × ℕ)
  | [], c, v => [(c, v)]
  | (k, w) :: rest, c, v =>
      if k = c then (c, v) :: rest else (k, w) :: chanSet rest c v

/-- Embeds `Map.delete`. -/
def chanDelete : List (String × ℕ) → String → List (String × ℕ)
  | [], _ => []
  | (k, v) :: rest, c => if k = c then rest else (k, v) :: chanDelete rest c

def maxReconnectAttempts : ℕ := 10

def reconnectDelayMs : ℕ := 1000

/-- The `WebSocketService` instance state. -/
structure WSState where
  connections : List (String × ℕ)
  reconnectAttempts : List (String × ℕ)
  nextSocketId : ℕ
deriving DecidableEq, Repr

/-- Result of a `connect` call: the updated service state, the returned
socket, and whether a `new WebSocket(...)` was constructed. -/
structure ConnectResult where
  state : WSState
  socket : ℕ
  createdNew : Bool
deriving DecidableEq, Repr

/-- Embeds `WebSocketService.connect`: an existing connection for the channel is
returned unchanged; otherwise a new socket is created and stored. -/
def connect (st : WSState) (channel : String) : ConnectResult :=
  match chanFind st.connections channel with
  | some sock => ⟨st, sock, false⟩
  | none =>
      let sock := st.nextSocketId
      ⟨⟨chanSet st.connections channel sock, st.reconnectAttempts,
        st.nextSocketId + 1⟩, sock, true⟩

/-- Embeds `ws.onopen`: reset the reconnect-attempt counter of the channel to `0`. -/
def onOpen (st : WSState) (channel : String) : WSState :=
  { st with reconnectAttempts := chanSet st.reconnectAttempts channel 0 }

/-- Result of the `onclose` handler: the updated state and, when a reconnect
was scheduled via `setTimeout`, its delay in milliseconds. -/
structure CloseResult where
  state : WSState
  scheduledDelay : Option ℕ
deriving DecidableEq, Repr

/-- Embeds `ws.onclose`: drop the connection; when the close was not clean and
`attempts < maxReconnectAttempts`, bump the counter and schedule a reconnect
after `reconnectDelayMs * 2 ^ attempts` milliseconds. -/
def onClose (st : WSState) (channel : String) (wasClean : Bool) : CloseResult :=
  let st1 : WSState := { st with connections := chanDelete st.connections channel }
  let attempts := (chanFind st.reconnectAttempts channel).getD 0
  if attempts < maxReconnectAttempts ∧ wasClean = false then
    ⟨{ st1 with
        reconnectAttempts := chanSet st1.reconnectAttempts channel (attempts + 1) },
      some (reconnectDelayMs * 2 ^ attempts)⟩
  else ⟨st1, none⟩

/-- One unclean close followed by the scheduled reconnect, if any; returns
whether a reconnect was scheduled. -/
def uncleanCycle (st : WSState) (channel : String) : WSState × Bool :=
  let r := onClose st channel false
  match r.scheduledDelay with
  | some _ => ((connect r.state channel).state, true)
  | none => (r.state, false)

/-- Number of reconnects scheduled over `n` consecutive unclean closes. -/
def countReconnects (st : WSState) (channel : String) : ℕ → ℕ
  | 0 => 0
  | n + 1 =>
      (if (uncleanCycle st channel).2 then 1 else 0) +
        countReconnects (uncleanCycle st channel).1 channel n

/-- Each channel is bound to at most one connection. -/
def atMostOnePerChannel (l : List (String × ℕ)) : Prop :=
  ∀ c, (l.filter (fun p => p.1 = c)).length ≤ 1

theorem chanFind_chanSet_self (l : List (String × ℕ)) (c : String) (v : ℕ) :
    chanFind (chanSet l c v) c = some v := by
  induction l with
  | nil => simp [chanSet, chanFind]
  | cons p rest ih =>
      obtain ⟨k, w⟩ := p
      by_cases hk : k = c
      · simp [chanSet, chanFind, hk]
      · simp [chanSet, chanFind, hk, ih]

theorem connect_reconnectAttempts (st : WSState) (channel : String) :
    (connect st channel).state.reconnectAttempts = st.reconnectAttempts := by
  unfold connect
  cases chanFind st.connections channel <;> rfl

theorem chanSet_mem (l : List (String × ℕ)) (c : String) (v : ℕ)
    (a : String × ℕ) (ha : a ∈ chanSet l c v) : a ∈ l ∨ a = (c, v) := by
  induction l with
  | nil => simpa [chanSet] using ha
  | cons p rest ih =>
      obtain ⟨k, w⟩ := p
      by_cases hk : k = c
      · rw [chanSet, if_pos hk] at ha
        rcases List.mem_cons.mp ha with h | h
        · exact Or.inr h
        · exact Or.inl (List.mem_cons_of_mem _ h)
      · rw [chanSet, if_neg hk] at ha
        rcases List.mem_cons.mp ha with h | h
        · exact Or.inl (h ▸ List.mem_cons_self _ _)
        · rcases ih h with h' | h'
          · exact Or.inl (List.mem_cons_of_mem _ h')
          · exact Or.inr h'

theorem chanSet_filter_length (l : List (String × ℕ)) (c : String) (v : ℕ)
    (d : String) (h : (l.filter (fun p => p.1 = d)).length ≤ 1) :
    ((chanSet l c v).filter (fun p => p.1 = d)).length ≤ 1 := by
  induction l with
  | nil =>
      by_cases hcd : c = d <;> simp [chanSet, hcd]
  | cons p rest ih =>
      obtain ⟨k, w⟩ := p
      by_cases hk : k = c
      · by_cases hkd : k = d
        · have hcd : c = d := hk ▸ hkd
          rw [chanSet, if_pos hk]
          simpa [List.filter_cons, hkd, hcd] using h
        · have hcd : ¬c = d := fun hc => hkd (hk.trans hc)
          rw [chanSet, if_pos hk]
          simpa [List.filter_cons, hkd, hcd] using h
      · by_cases hkd : k = d
        · have h0 : rest.filter (fun p => p.1 = d) = [] := by
            rcases hf : rest.filter (fun p => p.1 = d) with _ | ⟨x, xs⟩
            · exact hf
            · exfalso
              rw [List.filter_cons] at h
              simp [hkd, hf] at h
          have hcd : ¬c = d := fun hc => hk (hkd.trans hc.symm)
          have hz : (chanSet rest c v).filter (fun p => p.1 = d) = [] := by
            rw [List.filter_eq_nil_iff] at h0 ⊢
            intro a ha
            rcases chanSet_mem rest c v a ha with hmem | hnew
            · exact h0 a hmem
            · subst hnew
              simpa using hcd
          rw [chanSet, if_neg hk]
          simp [List.filter_cons, hkd, hz]
        · rw [chanSet, if_neg hk]
          simp only [List.filter_cons, hkd] at h ⊢
          simp only [decide_False, if_false] at h ⊢
          exact ih h

theorem chanDelete_sublist (l : List (String × ℕ)) (c : String) :
    List.Sublist (chanDelete l c) l := by
  induction l with
  | nil => simp [chanDelete]
  | cons p rest ih =>
      obtain ⟨k, w⟩ := p
      by_cases hk : k = c
      · rw [chanDelete, if_pos hk]
        exact List.sublist_cons_self _ _
      · rw [chanDelete, if_neg hk]
        exact List.Sublist.cons₂ _ ih

theorem connect_found (st : WSState) (channel : String) (sock : ℕ)
    (h : chanFind st.connections channel = some sock) :
    connect st channel = ⟨st, sock, false⟩ := by
  simp [connect, h]

theorem connect_atMostOne (st : WSState) (channel : String)
    (h : atMostOnePerChannel st.connections) :
    atMostOnePerChannel (connect st channel).state.connections := by
  rcases hf : chanFind st.connections channel with _ | sock
  · intro c
    simp only [connect, hf]
    exact chanSet_filter_length _ _ _ _ (h c)
  · intro c
    simp only [connect, hf]
    exact h c

theorem onClose_clean (st : WSState) (channel : String) :
    onClose st channel true =
      ⟨⟨chanDelete st.connections channel, st.reconnectAttempts,
        st.nextSocketId⟩, none⟩ := by
  have : ¬((chanFind st.reconnectAttempts channel).getD 0 < maxReconnectAttempts
      ∧ (true : Bool) = false) := fun hc => by simpa using hc.2
  simp only [onClose, if_neg this]

theorem onClose_unclean_lt (st : WSState) (channel : String)
    (h : (chanFind st.reconnectAttempts channel).getD 0 < maxReconnectAttempts) :
    onClose st channel false =
      ⟨⟨chanDelete st.connections channel,
        chanSet st.reconnectAttempts channel
          ((chanFind st.reconnectAttempts channel).getD 0 + 1),
        st.nextSocketId⟩,
        some (reconnectDelayMs *
          2 ^ (chanFind st.reconnectAttempts channel).getD 0)⟩ := by
  simp [onClose, h]

theorem onClose_unclean_ge (st : WSState) (channel : String)
    (h : maxReconnectAttempts ≤ (chanFind st.reconnectAttempts channel).getD 0) :
    onClose st channel false =
      ⟨⟨chanDelete st.connections channel, st.reconnectAttempts,
        st.nextSocketId⟩, none⟩ := by
  have hnot : ¬(chanFind st.reconnectAttempts channel).getD 0 <
      maxReconnectAttempts := not_lt.mpr h
  simp [onClose, hnot]

theorem countReconnects_le (channel : String) :
    ∀ (n : ℕ) (st : WSState),
      countReconnects st channel n ≤
        maxReconnectAttempts - (chanFind st.reconnectAttempts channel).getD 0 := by
  intro n
  induction n with
  | zero => intro st; simp [countReconnects]
  | succ n ih =>
      intro st
      by_cases h : (chanFind st.reconnectAttempts channel).getD 0 <
          maxReconnectAttempts
      · have hclose := onClose_unclean_lt st channel h
        have hattr :
            (chanFind (uncleanCycle st channel).1.reconnectAttempts
              channel).getD 0 =
              (chanFind st.reconnectAttempts channel).getD 0 + 1 := by
          simp only [uncleanCycle, hclose]
          rw [connect_reconnectAttempts]
          simp [chanFind_chanSet_self]
        have hsched : (uncleanCycle st channel).2 = true := by
          simp [uncleanCycle, hclose]
        have hrec := ih (uncleanCycle st channel).1
        rw [hattr] at hrec
        simp [countReconnects, hsched]
        omega
      · have hclose := onClose_unclean_ge st channel (le_of_not_lt h)
        have hattr :
            (chanFind (uncleanCycle st channel).1.reconnectAttempts
              channel).getD 0 =
              (chanFind st.reconnectAttempts channel).getD 0 := by
          simp [uncleanCycle, hclose]
        have hsched : (uncleanCycle st channel).2 = false := by
          simp [uncleanCycle, hclose]
        have hrec := ih (uncleanCycle st channel).1
        rw [hattr] at hrec
        simp [countReconnects, hsched]
        omega

/-- Claim C9: `WebSocketService.connect` is idempotent per channel — when a
connection for the channel exists, `connect` returns that connection, creates
no new `WebSocket`, and leaves the state unchanged; the service keeps at most
one connection per channel; a clean close never schedules a reconnect; an
unclean close with `attempts < 10` schedules one reconnect after
`1000 * 2 ^ attempts` milliseconds and an unclean close with `attempts ≥ 10`
schedules none, so any run of consecutive unclean closes schedules at most
ten reconnect attempts. -/
theorem webSocketService_claim :
    (∀ (st : WSState) (channel : String) (sock : ℕ),
        chanFind st.connections channel = some sock →
        connect st channel = ⟨st, sock, false⟩)
    ∧ (∀ (st : WSState) (channel : String),
        atMostOnePerChannel st.connections →
        atMostOnePerChannel (connect st channel).state.connections)
    ∧ (∀ (st : WSState) (channel : String),
        (onClose st channel true).scheduledDelay = none)
    ∧ (∀ (st : WSState) (channel : String),
        (chanFind st.reconnectAttempts channel).getD 0 < maxReconnectAttempts →
        (onClose st channel false).scheduledDelay =
          some (reconnectDelayMs *
            2 ^ (chanFind st.reconnectAttempts channel).getD 0))
    ∧ (∀ (st : WSState) (channel : String),
        maxReconnectAttempts ≤ (chanFind st.reconnectAttempts channel).getD 0 →
        (onClose st channel false).scheduledDelay = none)
    ∧ (∀ (st : WSState) (channel : String) (n : ℕ),
        countReconnects st channel n ≤ maxReconnectAttempts) := by
  refine ⟨connect_found, connect_atMostOne, ?_, ?_, ?_, ?_⟩
  · intro st channel
    rw [onClose_clean]
  · intro st channel h
    rw [onClose_unclean_lt st channel h]
  · intro st channel h
    rw [onClose_unclean_ge st channel h]
  · intro st channel n
    exact le_trans (countReconnects_le channel n st) (Nat.sub_le _ _)

/-- Witness for C9 at a concrete service state holding one `scan` channel
connection. -/
theorem webSocketService_claim_witness :
    connect ⟨[("scan", 7)], [], 8⟩ "scan" = ⟨⟨[("scan", 7)], [], 8⟩, 7, false⟩
    ∧ atMostOnePerChannel
        (connect ⟨[("scan", 7)], [], 8⟩ "scan").state.connections
    ∧ (onClose ⟨[("scan", 7)], [], 8⟩ "scan" false).scheduledDelay =
        some (reconnectDelayMs * 2 ^ 0)
    ∧ (onClose ⟨[("scan", 7)], [("scan", 10)], 8⟩ "scan" false).scheduledDelay =
        none
    ∧ countReconnects ⟨[("scan", 7)], [], 8⟩ "scan" 15 ≤ maxReconnectAttempts :=
  ⟨webSocketService_claim.1 _ "scan" 7 (by decide),
    webSocketService_claim.2.1 ⟨[("scan", 7)], [], 8⟩ "scan"
      (fun c => by by_cases h : "scan" = c <;> simp [h]),
    webSocketService_claim.2.2.2.1 ⟨[("scan", 7)], [], 8⟩ "scan" (by decide),
    webSocketService_claim.2.2.2.2.1 ⟨[("scan", 7)], [("scan", 10)], 8⟩ "scan"
      (by decide),
    webSocketService_claim.2.2.2.2.2 ⟨[("scan", 7)], [], 8⟩ "scan" 15⟩

/-! ## `SetupWizard` (src/unnamed/part_004; the variant at
src/frontend/src/pages/SetupWizard.jsx is older and lacks the scan-start)

`testService(service, data)` posts `/api/setup/test/{service}`; on success it
posts `/api/setup/configure/{service}`, records the service as configured,
and — only when the service is plex and `scanStarted` is still false — sets
`scanStarted`, clears `scanError` and posts `/api/scan/start` with body
`{ phases: [1] }` (Library Sync only); if that post rejects, `scanError` is
set and `scanStarted` is reset.  `completeSetup` posts `/api/setup/complete`
and the AI step posts `/api/setup/configure/ai`; neither starts a scan. -/

/-- One HTTP request issued by the setup wizard. -/
inductive WizCall where
  | testSvc (service : String)
  | configureSvc (service : String)
  | scanStart (phases : List ℕ)
  | setupDone
  | configureAi
deriving DecidableEq, Repr

/-- The wizard state relevant to scan control. -/
structure WizardState where
  configuredServices : List String
  scanStarted : Bool
  scanError : Option String
deriving DecidableEq, Repr

/-- Embeds `testService` from the wizard: `testSuccess` is the `success` field of the
`/api/setup/test` response, `startAccepted` tells whether the
`/api/scan/start` promise resolved (its `.catch` handler resets
`scanStarted` and records the error).  Returns the new state together with
the requests issued. -/
def testService (st : WizardState) (service : String) (testSuccess : Bool)
    (startAccepted : Bool) : WizardState × List WizCall :=
  if testSuccess then
    let st1 : WizardState :=
      { st with configuredServices := service :: st.configuredServices }
    if service = "plex" ∧ st.scanStarted = false then
      let calls := [WizCall.testSvc service, WizCall.configureSvc service,
        WizCall.scanStart [1]]
      if startAccepted then
        ({ st1 with scanStarted := true, scanError := none }, calls)
      else
        ({ st1 with
            scanStarted := false
            scanError := some "Failed to start library scan" }, calls)
    else (st1, [WizCall.testSvc service, WizCall.configureSvc service])
  else (st, [WizCall.testSvc service])

/-- Embeds `completeSetup`: the single request it issues. -/
def completeSetupCalls : List WizCall := [WizCall.setupDone]

/-- The save button of the AI step: the single request it issues. -/
def saveAiConfigCalls : List WizCall := [WizCall.configureAi]

/-- Recognises a `/api/scan/start` request. -/
def isScanStart : WizCall → Bool
  | WizCall.scanStart _ => true
  | _ => false

theorem testService_plex_fresh (st : WizardState) (startAccepted : Bool)
    (h : st.scanStarted = false) :
    ((testService st "plex" true startAccepted).2.filter isScanStart) =
      [WizCall.scanStart [1]] := by
  rcases startAccepted with _ | _ <;> simp [testService, h, isScanStart]

theorem testService_already_started (st : WizardState) (service : String)
    (testSuccess startAccepted : Bool) (h : st.scanStarted = true) :
    ((testService st service testSuccess startAccepted).2.filter isScanStart)
      = [] := by
  rcases testSuccess with _ | _
  · simp [testService, isScanStart]
  · by_cases hs : service = "plex" <;> simp [testService, h, hs, isScanStart]

theorem testService_not_plex (st : WizardState) (service : String)
    (testSuccess startAccepted : Bool) (h : service ≠ "plex") :
    ((testService st service testSuccess startAccepted).2.filter isScanStart)
      = [] := by
  rcases testSuccess with _ | _ <;> simp [testService, h, isScanStart]

theorem testService_phases (st : WizardState) (service : String)
    (testSuccess startAccepted : Bool) (c : WizCall)
    (hc : c ∈ (testService st service testSuccess startAccepted).2)
    (hs : isScanStart c = true) : c = WizCall.scanStart [1] := by
  rcases testSuccess with _ | _
  · rw [testService] at hc
    simp at hc
    subst hc
    simp [isScanStart] at hs
  · by_cases hp : service = "plex" ∧ st.scanStarted = false
    · rw [testService] at hc
      simp only [if_pos rfl, if_pos hp] at hc
      rcases startAccepted with _ | _ <;>
        · simp at hc
          rcases hc with h1 | h1 | h1 <;> subst h1 <;>
            first
              | rfl
              | simp [isScanStart] at hs
    · rw [testService] at hc
      simp only [if_pos rfl, if_neg hp] at hc
      simp at hc
      rcases hc with h1 | h1 <;> subst h1 <;> simp [isScanStart] at hs

/-- Claim C3: a successful Plex connection test during setup with no scan
started yet issues exactly one `/api/scan/start` request, whose phase subset
is `[1]` (Library Sync only); every scan-start request the wizard can issue
carries phases `[1]`; no scan-start is issued while one is already pending
(`scanStarted = true`), for a non-Plex service, for a failed test, or by
`completeSetup` or the AI configuration step. -/
theorem setupWizard_claim :
    (∀ (st : WizardState) (startAccepted : Bool), st.scanStarted = false →
        ((testService st "plex" true startAccepted).2.filter isScanStart) =
          [WizCall.scanStart [1]]
        ∧ (testService st "plex" true startAccepted).1.scanStarted =
            startAccepted)
    ∧ (∀ (st : WizardState) (service : String)
        (testSuccess startAccepted : Bool), st.scanStarted = true →
        ((testService st service testSuccess startAccepted).2.filter
          isScanStart) = [])
    ∧ (∀ (st : WizardState) (service : String)
        (testSuccess startAccepted : Bool), service ≠ "plex" →
        ((testService st service testSuccess startAccepted).2.filter
          isScanStart) = [])
    ∧ (∀ (st : WizardState) (service : String)
        (testSuccess startAccepted : Bool) (c : WizCall),
        c ∈ (testService st service testSuccess startAccepted).2 →
        isScanStart c = true → c = WizCall.scanStart [1])
    ∧ completeSetupCalls.filter isScanStart = []
    ∧ saveAiConfigCalls.filter isScanStart = [] := by
  refine ⟨?_, testService_already_started, testService_not_plex,
    testService_phases, rfl, rfl⟩
  intro st startAccepted h
  refine ⟨testService_plex_fresh st startAccepted h, ?_⟩
  rcases startAccepted with _ | _ <;> simp [testService, h]

/-- Witness for C3 at the initial wizard state. -/
theorem setupWizard_claim_witness :
    ((testService ⟨[], false, none⟩ "plex" true true).2.filter isScanStart) =
      [WizCall.scanStart [1]]
    ∧ ((testService ⟨[], true, none⟩ "radarr" true true).2.filter isScanStart)
        = []
    ∧ ((testService ⟨[], false, none⟩ "sonarr" true true).2.filter
        isScanStart) = [] :=
  ⟨(setupWizard_claim.1 ⟨[], false, none⟩ true rfl).1,
    setupWizard_claim.2.1 ⟨[], true, none⟩ "radarr" true true rfl,
    setupWizard_claim.2.2.1 ⟨[], false, none⟩ "sonarr" true true (by decide)⟩

/-! ## Scan Orchestrator control surface (C1, C6)

The backend orchestrator is not part of the shipped sources; it is modelled
from the specification (spec.md §4.1, §6, §8). -/

/-- ScanRun lifecycle status. -/
inductive RunStatus where
  | running
  | completed
  | cancelled
  | failed
deriving DecidableEq, Repr

/-- Per-phase status of a ScanRun. -/
inductive PhaseStatus where
  | pending
  | phaseActive
  | succeeded
  | failed
  | skipped
deriving DecidableEq, Repr

/-- Modelled from the spec: a ScanRun record — identifier, status and
per-phase statuses (spec.md §3 ScanRun). -/
structure ScanRun where
  runId : ℕ
  status : RunStatus
  phaseStatuses : List PhaseStatus
deriving DecidableEq, Repr

/-- Control-surface error taxonomy (spec.md §6, §7). -/
inductive ScanCtrlError where
  | scanAlreadyRunning
  | noActiveScan
deriving DecidableEq, Repr

/-- Modelled from the spec: the authoritative run store of the orchestrator
(spec.md §9: a single authoritative ScanRun record set with a
uniquely-enforced running status; history retained). -/
structure OrchState where
  runs : List ScanRun
  nextRunId : ℕ
deriving DecidableEq, Repr

def initialOrchState : OrchState := ⟨[], 0⟩

/-- Does some ScanRun record currently have status running? -/
def hasActiveRun (s : OrchState) : Bool :=
  s.runs.any (fun r => r.status = RunStatus.running)

/-- Modelled from the spec: `start-scan` — begins a ScanRun if none is
active, returning the identifier of the new run, and fails with
`ScanAlreadyRunning` (leaving the store untouched) if one exists
(spec.md §4.1, §6). -/
def startScan (s : OrchState) (phaseCount : ℕ) :
    Except ScanCtrlError ℕ × OrchState :=
  if hasActiveRun s then (Except.error ScanCtrlError.scanAlreadyRunning, s)
  else
    (Except.ok s.nextRunId,
      ⟨⟨s.nextRunId, RunStatus.running,
          List.replicate phaseCount PhaseStatus.pending⟩ :: s.runs,
        s.nextRunId + 1⟩)

/-- Move the named run from running to the given terminal status. -/
def markTerminal (s : OrchState) (rid : ℕ) (final : RunStatus) : OrchState :=
  ⟨s.runs.map (fun r =>
      if r.runId = rid ∧ r.status = RunStatus.running then
        { r with status := final }
      else r),
    s.nextRunId⟩

/-- Modelled from the spec: `stop-scan` — cooperative cancellation of a
running ScanRun (spec.md §4.1, §6). -/
def stopScan (s : OrchState) (rid : ℕ) : OrchState :=
  markTerminal s rid RunStatus.cancelled

/-- Modelled from the spec: the orchestrator records a finished run as
completed, or failed on an unrecoverable store failure (spec.md §7). -/
def finishScan (s : OrchState) (rid : ℕ) (ok : Bool) : OrchState :=
  markTerminal s rid (if ok then RunStatus.completed else RunStatus.failed)

/-- The control operations that mutate the run store. -/
inductive OrchOp where
  | opStart (phaseCount : ℕ)
  | opStop (rid : ℕ)
  | opFinish (rid : ℕ) (ok : Bool)
deriving DecidableEq, Repr

def applyOrchOp (s : OrchState) : OrchOp → OrchState
  | OrchOp.opStart n => (startScan s n).2
  | OrchOp.opStop rid => stopScan s rid
  | OrchOp.opFinish rid ok => finishScan s rid ok

/-- The store after a sequence of control operations from the initial state. -/
def runOrchOps (ops : List OrchOp) : OrchState :=
  ops.foldl applyOrchOp initialOrchState

/-- At most one ScanRun record has status running. -/
def atMostOneRunning (s : OrchState) : Prop :=
  (s.runs.filter (fun r => r.status = RunStatus.running)).length ≤ 1

theorem startScan_active (s : OrchState) (n : ℕ) (h : hasActiveRun s = true) :
    startScan s n = (Except.error ScanCtrlError.scanAlreadyRunning, s) := by
  simp [startScan, h]

theorem markTerminal_running_le (s : OrchState) (rid : ℕ) (final : RunStatus) :
    ((markTerminal s rid final).runs.filter
        (fun r => r.status = RunStatus.running)).length ≤
      (s.runs.filter (fun r => r.status = RunStatus.running)).length := by
  have hruns : (markTerminal s rid final).runs =
      s.runs.map (fun r =>
        if r.runId = rid ∧ r.status = RunStatus.running then
          { r with status := final }
        else r) := rfl
  rw [hruns, ← List.countP_eq_length_filter, ← List.countP_eq_length_filter,
    List.countP_map]
  apply List.countP_mono_left
  intro r _ hr
  simp only [Function.comp] at hr
  by_cases hc : r.runId = rid ∧ r.status = RunStatus.running
  · exact decide_eq_true hc.2
  · simp only [if_neg hc] at hr
    exact hr

theorem applyOrchOp_atMostOne (s : OrchState) (op : OrchOp)
    (h : atMostOneRunning s) : atMostOneRunning (applyOrchOp s op) := by
  cases op with
  | opStart n =>
      by_cases ha : hasActiveRun s = true
      · simpa [applyOrchOp, startScan, ha] using h
      · have hz : (s.runs.filter
            (fun r => r.status = RunStatus.running)).length = 0 := by
          have : ∀ r ∈ s.runs, ¬(r.status = RunStatus.running) := by
            intro r hr hs
            exact ha (List.any_eq_true.mpr ⟨r, hr, decide_eq_true hs⟩)
          rw [List.length_eq_zero, List.filter_eq_nil_iff]
          intro r hr
          simpa using this r hr
        simp only [applyOrchOp, startScan, ha, if_false, Bool.false_eq_true]
        unfold atMostOneRunning
        simp only [List.filter_cons]
        simp [hz]
  | opStop rid =>
      exact le_trans (markTerminal_running_le s rid RunStatus.cancelled) h
  | opFinish rid ok =>
      exact le_trans (markTerminal_running_le s rid _) h

theorem runOrchOps_atMostOne (ops : List OrchOp) :
    atMostOneRunning (runOrchOps ops) := by
  suffices h : ∀ (s : OrchState), atMostOneRunning s →
      atMostOneRunning (ops.foldl applyOrchOp s) by
    apply h
    simp [atMostOneRunning, initialOrchState]
  induction ops with
  | nil => intro s hs; exact hs
  | cons op rest ih =>
      intro s hs
      exact ih _ (applyOrchOp_atMostOne s op hs)

/-- Claim C1 (spec-modelled): while a ScanRun is active, `start-scan` returns
`ScanAlreadyRunning` and leaves the run store untouched — no second ScanRun
record is created and the existing run is unchanged; and in every store
reachable by control operations, at most one ScanRun has status running. -/
theorem startScan_claim :
    (∀ (s : OrchState) (n : ℕ), hasActiveRun s = true →
        startScan s n = (Except.error ScanCtrlError.scanAlreadyRunning, s))
    ∧ (∀ ops : List OrchOp, atMostOneRunning (runOrchOps ops)) :=
  ⟨startScan_active, runOrchOps_atMostOne⟩

/-- Witness for C1: a store holding one running run rejects `start-scan`,
and a start-stop-start operation sequence keeps the invariant. -/
theorem startScan_claim_witness :
    startScan ⟨[⟨0, RunStatus.running, [PhaseStatus.phaseActive]⟩], 1⟩ 17 =
      (Except.error ScanCtrlError.scanAlreadyRunning,
        ⟨[⟨0, RunStatus.running, [PhaseStatus.phaseActive]⟩], 1⟩)
    ∧ atMostOneRunning (runOrchOps
        [OrchOp.opStart 17, OrchOp.opStop 0, OrchOp.opStart 17]) :=
  ⟨startScan_claim.1 ⟨[⟨0, RunStatus.running, [PhaseStatus.phaseActive]⟩], 1⟩
      17 (by decide),
    startScan_claim.2 [OrchOp.opStart 17, OrchOp.opStop 0, OrchOp.opStart 17]⟩

/-! ## Phase execution of a completed run (C6) -/

/-- Does the cancellation request, if any, precede phase `p`?  Modelled from
the spec: phases after the cancellation checkpoint never start (spec.md §4.1,
§5). -/
def cancelledBefore (cancelAt : Option ℕ) (p : ℕ) : Bool :=
  match cancelAt with
  | some c => decide (c ≤ p)
  | none => false

/-- Modelled from the spec: the terminal per-phase statuses of a run that has
reached a terminal state.  Phases run strictly in declared order `1..total`;
a phase outside the requested subset, or after the cancellation checkpoint,
is skipped; a selected phase succeeds or fails according to its outcome, and
a failure never aborts the run (spec.md §4.1). -/
def runPhaseStatuses (total : ℕ) (selected : List ℕ) (outcome : ℕ → Bool)
    (cancelAt : Option ℕ) : List PhaseStatus :=
  (List.range total).map (fun i =>
    if cancelledBefore cancelAt (i + 1) then PhaseStatus.skipped
    else if selected.contains (i + 1) then
      (if outcome (i + 1) then PhaseStatus.succeeded else PhaseStatus.failed)
    else PhaseStatus.skipped)

theorem terminal_count (l : List PhaseStatus)
    (h : ∀ st ∈ l, st = PhaseStatus.succeeded ∨ st = PhaseStatus.failed ∨
      st = PhaseStatus.skipped) :
    l.count PhaseStatus.succeeded + l.count PhaseStatus.failed +
      l.count PhaseStatus.skipped = l.length := by
  induction l with
  | nil => simp
  | cons st rest ih =>
      have hrest := ih (fun x hx => h x (List.mem_cons_of_mem _ hx))
      rcases h st (List.mem_cons_self _ _) with h1 | h1 | h1 <;>
        subst h1 <;> simp [List.count_cons] <;> omega

theorem runPhaseStatuses_terminal (total : ℕ) (selected : List ℕ)
    (outcome : ℕ → Bool) (cancelAt : Option ℕ) :
    ∀ st ∈ runPhaseStatuses total selected outcome cancelAt,
      st = PhaseStatus.succeeded ∨ st = PhaseStatus.failed ∨
        st = PhaseStatus.skipped := by
  intro st hst
  rw [runPhaseStatuses, List.mem_map] at hst
  obtain ⟨i, _, hi⟩ := hst
  subst hi
  by_cases h1 : cancelledBefore cancelAt (i + 1) = true
  · simp [h1]
  · simp only [Bool.not_eq_true] at h1
    by_cases h2 : (i + 1) ∈ selected
    · rcases h3 : outcome (i + 1) with _ | _ <;> simp [h1, h2, h3]
    · simp [h1, h2]

/-- Claim C6 (spec-modelled): for every run that has reached a terminal
state — completion, cancellation, or failure — the number of succeeded plus
failed plus skipped phases equals the declared phase count, no phase is left
pending or running, and independently of any phase failure every phase ends
in a terminal status. -/
theorem phaseAccounting_claim :
    ∀ (total : ℕ) (selected : List ℕ) (outcome : ℕ → Bool)
      (cancelAt : Option ℕ),
      (runPhaseStatuses total selected outcome cancelAt).count
          PhaseStatus.succeeded +
        (runPhaseStatuses total selected outcome cancelAt).count
          PhaseStatus.failed +
        (runPhaseStatuses total selected outcome cancelAt).count
          PhaseStatus.skipped = total
      ∧ (runPhaseStatuses total selected outcome cancelAt).count
          PhaseStatus.pending = 0
      ∧ (runPhaseStatuses total selected outcome cancelAt).count
          PhaseStatus.phaseActive = 0
      ∧ (∀ st ∈ runPhaseStatuses total selected outcome cancelAt,
          st = PhaseStatus.succeeded ∨ st = PhaseStatus.failed ∨
            st = PhaseStatus.skipped) := by
  intro total selected outcome cancelAt
  have hter := runPhaseStatuses_terminal total selected outcome cancelAt
  have hlen : (runPhaseStatuses total selected outcome cancelAt).length =
      total := by
    simp [runPhaseStatuses]
  refine ⟨by rw [terminal_count _ hter, hlen], ?_, ?_, hter⟩
  · rw [List.count_eq_zero]
    intro hmem
    rcases hter _ hmem with h | h | h <;> simp at h
  · rw [List.count_eq_zero]
    intro hmem
    rcases hter _ hmem with h | h | h <;> simp at h

/-! ## Live progress channel events (C2) -/

/-- A JSON event published on the scan channel.  `scanProgress` carries the
`phase`, `phase_name`, `progress_percent` and `current_item` fields. -/
inductive ScanEvent where
  | scanProgress (phase : ℕ) (phaseName : String) (progressPercent : ℚ)
      (currentItem : String)
  | scanComplete
  | scanStopped
deriving DecidableEq, Repr

/-- Is the event one of the two terminal event types? -/
def isTerminalEvent : ScanEvent → Bool
  | ScanEvent.scanComplete => true
  | ScanEvent.scanStopped => true
  | _ => false

/-- One progress update published by a phase:
`publish(phase, phase_name, percent, current_item)` (spec.md §4.7). -/
structure ProgressUpdate where
  phase : ℕ
  phaseName : String
  progressPercent : ℚ
  currentItem : String
deriving DecidableEq, Repr

/-- Modelled from the spec: the event trace of one run on the live progress
channel — the scan_progress events published during the run followed by the
single terminal event, scan_stopped for a cancelled run and scan_complete
otherwise (spec.md §6). -/
def runEventTrace (updates : List ProgressUpdate) (stopped : Bool) :
    List ScanEvent :=
  (updates.map (fun u => ScanEvent.scanProgress u.phase u.phaseName
      u.progressPercent u.currentItem)) ++
    [if stopped then ScanEvent.scanStopped else ScanEvent.scanComplete]

/-- Claim C2 (spec-modelled): during a run the live channel emits only
scan_progress events of the documented shape, then exactly one terminal
event (scan_complete or scan_stopped), which is the last event of the trace —
no scan_progress event follows it. -/
theorem eventTrace_claim :
    ∀ (updates : List ProgressUpdate) (stopped : Bool),
      (runEventTrace updates stopped).countP isTerminalEvent = 1
      ∧ (runEventTrace updates stopped).getLast? =
          some (if stopped then ScanEvent.scanStopped else ScanEvent.scanComplete)
      ∧ (∀ e ∈ (runEventTrace updates stopped).dropLast,
          isTerminalEvent e = false ∧
            ∃ p n q i, e = ScanEvent.scanProgress p n q i) := by
  intro updates stopped
  refine ⟨?_, ?_, ?_⟩
  · rw [runEventTrace, List.countP_append, List.countP_map]
    have h0 : updates.countP
        (isTerminalEvent ∘ fun u => ScanEvent.scanProgress u.phase u.phaseName
          u.progressPercent u.currentItem) = 0 := by
      rw [List.countP_eq_zero]
      intro u _
      simp [isTerminalEvent, Function.comp]
    rcases stopped with _ | _ <;>
      simp [h0, List.countP_cons, isTerminalEvent]
  · rw [runEventTrace, List.getLast?_append]
    rfl
  · intro e he
    rw [runEventTrace, List.dropLast_concat] at he
    rw [List.mem_map] at he
    obtain ⟨u, _, hu⟩ := he
    subst hu
    exact ⟨rfl, u.phase, u.phaseName, u.progressPercent, u.currentItem, rfl⟩

/-- Witness for C6 at a 17-phase run with phases 1-5 selected, phase 3
failing, and cancellation at phase 5. -/
theorem phaseAccounting_claim_witness :
    (runPhaseStatuses 17 [1, 2, 3, 4, 5] (fun p => decide (p ≠ 3))
        (some 5)).count PhaseStatus.succeeded +
      (runPhaseStatuses 17 [1, 2, 3, 4, 5] (fun p => decide (p ≠ 3))
        (some 5)).count PhaseStatus.failed +
      (runPhaseStatuses 17 [1, 2, 3, 4, 5] (fun p => decide (p ≠ 3))
        (some 5)).count PhaseStatus.skipped = 17 :=
  (phaseAccounting_claim 17 [1, 2, 3, 4, 5] (fun p => decide (p ≠ 3))
    (some 5)).1

/-- Witness for C2 at a one-update trace of a run that completed. -/
theorem eventTrace_claim_witness :
    (runEventTrace [⟨1, "Library Sync", 50, "Movie A"⟩] false).countP
      isTerminalEvent = 1 :=
  (eventTrace_claim [⟨1, "Library Sync", 50, "Movie A"⟩] false).1

/-! ## Duplicate Clustering Engine (C4, C5)

Modelled from the spec (spec.md §4.4): the recommended keep prefers higher
resolution, then larger file size at or below the expected-size ceiling (a
file over the ceiling ranks below every file within it, to avoid rewarding
bloat), then newer codec; reclaimable bytes are the sum of all
non-recommended member sizes. -/

/-- A FileRecord as the Duplicate Clustering Engine sees it. -/
structure DupFile where
  fileId : ℕ
  resolution : ℕ
  sizeBytes : ℕ
  codecRecency : ℕ
deriving DecidableEq, Repr

/-- Modelled from the spec: the size component of the ranking — larger is
better at or below the expected-size ceiling; a file over the ceiling gets
the worst size key. -/
def sizeKey (ceiling : ℕ) (f : DupFile) : ℕ :=
  if f.sizeBytes ≤ ceiling then f.sizeBytes + 1 else 0

/-- Modelled from the spec: the fixed tie-break key
(resolution, effective size, codec recency), compared lexicographically. -/
def rankKey (ceiling : ℕ) (f : DupFile) : ℕ × ℕ × ℕ :=
  (f.resolution, sizeKey ceiling f, f.codecRecency)

/-- Lexicographic comparison of ranking keys: `keyLe a b` means `a` ranks at
or below `b`. -/
def keyLe (a b : ℕ × ℕ × ℕ) : Bool :=
  if a.1 ≠ b.1 then decide (a.1 < b.1)
  else if a.2.1 ≠ b.2.1 then decide (a.2.1 < b.2.1)
  else decide (a.2.2 ≤ b.2.2)

/-- Ranking comparison `rankLe ceiling f g`: `f` ranks at or below `g`. -/
def rankLe (ceiling : ℕ) (f g : DupFile) : Bool :=
  keyLe (rankKey ceiling f) (rankKey ceiling g)

/-- The recommended keep of a nonempty member list: the ranking maximum,
later members winning ties. -/
def recommendedKeep (ceiling : ℕ) (f : DupFile) (rest : List DupFile) :
    DupFile :=
  rest.foldl (fun best g => if rankLe ceiling best g then g else best) f

theorem keyLe_iff (a b : ℕ × ℕ × ℕ) :
    keyLe a b = true ↔
      a.1 < b.1 ∨ (a.1 = b.1 ∧
        (a.2.1 < b.2.1 ∨ (a.2.1 = b.2.1 ∧ a.2.2 ≤ b.2.2))) := by
  obtain ⟨a1, a2, a3⟩ := a
  obtain ⟨b1, b2, b3⟩ := b
  simp only [keyLe]
  by_cases h1 : a1 = b1 <;> by_cases h2 : a2 = b2 <;>
    simp [h1, h2] <;> omega

theorem keyLe_total (a b : ℕ × ℕ × ℕ) :
    keyLe a b = true ∨ keyLe b a = true := by
  rw [keyLe_iff, keyLe_iff]
  omega

theorem keyLe_refl (a : ℕ × ℕ × ℕ) : keyLe a a = true := by
  rw [keyLe_iff]
  omega

theorem keyLe_trans (a b c : ℕ × ℕ × ℕ) (hab : keyLe a b = true)
    (hbc : keyLe b c = true) : keyLe a c = true := by
  rw [keyLe_iff] at hab hbc ⊢
  omega

theorem keyLe_antisymm (a b : ℕ × ℕ × ℕ) (hab : keyLe a b = true)
    (hba : keyLe b a = true) : a = b := by
  rw [keyLe_iff] at hab hba
  obtain ⟨a1, a2, a3⟩ := a
  obtain ⟨b1, b2, b3⟩ := b
  simp only [Prod.mk.injEq]
  simp only at hab hba
  omega

/-- File A of the documented ranking example: 1080p, 8 GB. -/
def fileA : DupFile := ⟨1, 1080, 8, 0⟩

/-- File B of the documented ranking example: 720p, 4 GB. -/
def fileB : DupFile := ⟨2, 720, 4, 0⟩

/-- File C of the documented ranking example: 1080p, 15 GB, over the 10 GB
expected ceiling. -/
def fileC : DupFile := ⟨3, 1080, 15, 0⟩

/-- Claim C4 (spec-modelled): the duplicate ranking (higher resolution, then
larger size at or below the expected ceiling, then newer codec, compared on
the fixed lexicographic key) is a total order on ranking keys — total,
reflexive, transitive, and antisymmetric — and on files A (1080p, 8 GB),
B (720p, 4 GB), C (1080p, 15 GB over the 10 GB ceiling) the recommended keep
is A. -/
theorem duplicateRanking_claim :
    (∀ a b : ℕ × ℕ × ℕ, keyLe a b = true ∨ keyLe b a = true)
    ∧ (∀ a : ℕ × ℕ × ℕ, keyLe a a = true)
    ∧ (∀ a b c : ℕ × ℕ × ℕ, keyLe a b = true → keyLe b c = true →
        keyLe a c = true)
    ∧ (∀ a b : ℕ × ℕ × ℕ, keyLe a b = true → keyLe b a = true → a = b)
    ∧ recommendedKeep 10 fileA [fileB, fileC] = fileA
    ∧ rankLe 10 fileB fileA = true ∧ rankLe 10 fileA fileB = false
    ∧ rankLe 10 fileC fileA = true ∧ rankLe 10 fileA fileC = false :=
  ⟨keyLe_total, keyLe_refl, keyLe_trans, keyLe_antisymm,
    by decide, by decide, by decide, by decide, by decide⟩

/-- Witness for C4: the transitivity and antisymmetry parts applied at
concrete ranking keys. -/
theorem duplicateRanking_claim_witness :
    keyLe (720, 5, 0) (1080, 9, 0) = true
    ∧ keyLe (1080, 1, 0) (1080, 9, 0) = true
    ∧ keyLe (720, 5, 0) (1080, 9, 0) = true
    ∧ (1080, 9, 0) = ((1080, 9, 0) : ℕ × ℕ × ℕ) :=
  ⟨by decide, by decide,
    duplicateRanking_claim.2.2.1 (720, 5, 0) (1080, 1, 0) (1080, 9, 0)
      (by decide) (by decide),
    duplicateRanking_claim.2.2.2.1 (1080, 9, 0) (1080, 9, 0)
      (by decide) (by decide)⟩

/-! ## DuplicateGroups and reclaimable bytes (C5) -/

/-- A LibraryItem as the Duplicate Clustering Engine sees it: its files. -/
structure LibItem where
  itemId : ℕ
  title : String
  files : List DupFile
deriving DecidableEq, Repr

/-- Modelled from the spec: a DuplicateGroup — member file ids, recommended
keep, estimated reclaimable bytes (total member size minus the size of the keep,
spec.md §3, §4.4). -/
structure DuplicateGroup where
  memberIds : List ℕ
  recommendedKeepId : ℕ
  reclaimableBytes : ℕ
deriving DecidableEq, Repr

/-- Build the group for an item with at least two files. -/
def mkGroup (ceiling : ℕ) (f : DupFile) (rest : List DupFile) :
    DuplicateGroup :=
  let keep := recommendedKeep ceiling f rest
  { memberIds := (f :: rest).map (fun x => x.fileId)
    recommendedKeepId := keep.fileId
    reclaimableBytes :=
      ((f :: rest).map (fun x => x.sizeBytes)).sum - keep.sizeBytes }

/-- The file pool of one logical title: the files of every item carrying the
title — files under the same LibraryItem together with the files of any other
item matching the same title (spec.md §4.4). -/
def titleFiles (items : List LibItem) (t : String) : List DupFile :=
  (items.filter (fun it => it.title = t)).flatMap (fun it => it.files)

/-- The distinct logical titles of the library, in first-appearance order. -/
def libraryTitles (items : List LibItem) : List String :=
  (items.map (fun it => it.title)).dedup

/-- Modelled from the spec: the Duplicate Clustering Engine groups
FileRecords under the same LibraryItem, or under the same title match across
items, into one DuplicateGroup per logical title backed by more than one
file (spec.md §4.4). -/
def duplicateGroups (ceiling : ℕ) (items : List LibItem) :
    List DuplicateGroup :=
  (libraryTitles items).filterMap (fun t =>
    match titleFiles items t with
    | f :: g :: rest => some (mkGroup ceiling f (g :: rest))
    | _ => none)

theorem recommendedKeep_mem (ceiling : ℕ) (f : DupFile)
    (rest : List DupFile) : recommendedKeep ceiling f rest ∈ f :: rest := by
  suffices h : ∀ (l : List DupFile) (a : DupFile),
      l.foldl (fun best g => if rankLe ceiling best g then g else best) a ∈
        a :: l by
    exact h rest f
  intro l
  induction l with
  | nil => intro a; simp
  | cons x xs ih =>
      intro a
      rw [List.foldl_cons]
      by_cases h : rankLe ceiling a x = true
      · rw [if_pos h]
        rcases List.mem_cons.mp (ih x) with h1 | h1
        · rw [h1]
          exact List.mem_cons_of_mem _ (List.mem_cons_self _ _)
        · exact List.mem_cons_of_mem _ (List.mem_cons_of_mem _ h1)
      · rw [if_neg h]
        rcases List.mem_cons.mp (ih a) with h1 | h1
        · rw [h1]
          exact List.mem_cons_self _ _
        · exact List.mem_cons_of_mem _ (List.mem_cons_of_mem _ h1)

theorem mem_size_le_sum (l : List DupFile) (k : DupFile) (hk : k ∈ l) :
    k.sizeBytes ≤ (l.map (fun x => x.sizeBytes)).sum := by
  induction l with
  | nil => simp at hk
  | cons x xs ih =>
      rcases List.mem_cons.mp hk with h | h
      · subst h; simp
      · simp only [List.map_cons, List.sum_cons]
        exact le_add_of_nonneg_of_le (Nat.zero_le _) (ih h)

theorem sum_erase_keep (l : List DupFile) (k : DupFile)
    (hk : k ∈ l) (hnd : (l.map (fun x => x.fileId)).Nodup) :
    (l.map (fun x => x.sizeBytes)).sum - k.sizeBytes =
      ((l.filter (fun x => x.fileId ≠ k.fileId)).map
        (fun x => x.sizeBytes)).sum := by
  induction l with
  | nil => simp at hk
  | cons x xs ih =>
      simp only [List.map_cons, List.nodup_cons] at hnd
      rcases List.mem_cons.mp hk with h | h
      · subst h
        have hxs : xs.filter (fun y => y.fileId ≠ k.fileId) = xs := by
          rw [List.filter_eq_self]
          intro y hy
          have hmem : y.fileId ∈ xs.map (fun z => z.fileId) :=
            List.mem_map.mpr ⟨y, hy, rfl⟩
          have hne : y.fileId ≠ k.fileId := fun hc => hnd.1 (hc ▸ hmem)
          simpa using hne
        rw [List.filter_cons, if_neg (by simp), hxs, List.map_cons,
          List.sum_cons]
        omega
      · have hxk : x.fileId ≠ k.fileId := by
          have hmem : k.fileId ∈ xs.map (fun z => z.fileId) :=
            List.mem_map.mpr ⟨k, h, rfl⟩
          intro hcontra
          exact hnd.1 (hcontra ▸ hmem)
        have hle := mem_size_le_sum xs k h
        rw [List.filter_cons, if_pos (by simpa using hxk), List.map_cons,
          List.sum_cons, List.map_cons, List.sum_cons, ← ih h hnd.2]
        omega

set_option maxRecDepth 8000 in
/-- Claim C5 (spec-modelled): for every DuplicateGroup (members with distinct
file ids) the estimated reclaimable bytes equal the sum of the sizes of all
members other than the recommended keep; the 100-item scenario library — one
title backed by three files, the other 99 titles pairwise distinct with one
file each — yields exactly one DuplicateGroup, of size 3, whose reclaimable
bytes are the sum of the sizes of the two non-recommended files; and two
items matching the same title are pooled into one cross-item group. -/
theorem reclaimableBytes_claim :
    (∀ (ceiling : ℕ) (f : DupFile) (rest : List DupFile),
        ((f :: rest).map (fun x => x.fileId)).Nodup →
        (mkGroup ceiling f rest).reclaimableBytes =
          (((f :: rest).filter (fun x =>
              x.fileId ≠ (recommendedKeep ceiling f rest).fileId)).map
            (fun x => x.sizeBytes)).sum)
    ∧ duplicateGroups 10
        (⟨0, "Dup Movie", [fileA, fileB, ⟨3, 576, 2, 0⟩]⟩ ::
          (List.range 99).map
            (fun i => ⟨i + 1, toString (i + 1), [⟨100 + i, 1080, 5, 0⟩]⟩))
        = [⟨[1, 2, 3], 1, 4 + 2⟩]
    ∧ duplicateGroups 10
        [⟨10, "Same Title", [fileA]⟩, ⟨11, "Same Title", [fileB]⟩] =
        [⟨[1, 2], 1, 4⟩] := by
  refine ⟨?_, by decide, by decide⟩
  intro ceiling f rest hnd
  exact sum_erase_keep (f :: rest) (recommendedKeep ceiling f rest)
    (recommendedKeep_mem ceiling f rest) hnd

/-- Witness for C5: the general reclaimable-bytes equation applied to the
concrete three-member group of the scenario. -/
theorem reclaimableBytes_claim_witness :
    (mkGroup 10 fileA [fileB, ⟨3, 576, 2, 0⟩]).reclaimableBytes =
      (((fileA :: [fileB, ⟨3, 576, 2, 0⟩]).filter (fun x =>
          x.fileId ≠ (recommendedKeep 10 fileA
            [fileB, ⟨3, 576, 2, 0⟩]).fileId)).map
        (fun x => x.sizeBytes)).sum :=
  reclaimableBytes_claim.1 10 fileA [fileB, ⟨3, 576, 2, 0⟩] (by decide)

/-! ## Library Sync Collector (C7)

Modelled from the spec (spec.md §4.2): `sync()` fetches the remote inventory
and reconciles the local store — remote items absent locally are created,
local items absent remotely are soft-deleted (marked removed), attribute
changes update the record in place; it returns added/updated/removed counts. -/

/-- The file attributes the collector reconciles. -/
structure FileAttrs where
  sizeBytes : ℕ
  codec : String
deriving DecidableEq, Repr

/-- A LibraryItem record in the local store; `removed` is the soft-delete
mark. -/
structure StoreItem where
  itemId : ℕ
  attrs : FileAttrs
  removed : Bool
deriving DecidableEq, Repr

/-- The counts `sync()` reports. -/
structure SyncCounts where
  added : ℕ
  updated : ℕ
  removedCount : ℕ
deriving DecidableEq, Repr

/-- Look up a remote item by identifier. -/
def remoteLookup : List (ℕ × FileAttrs) → ℕ → Option FileAttrs
  | [], _ => none
  | (j, a) :: rest, i => if j = i then some a else remoteLookup rest i

/-- Reconcile one local item against the remote inventory: present remotely
updates attributes in place and clears the soft-delete mark; absent remotely
marks the item removed. -/
def applyRemote (remote : List (ℕ × FileAttrs)) (it : StoreItem) :
    StoreItem :=
  match remoteLookup remote it.itemId with
  | some a => { it with attrs := a, removed := false }
  | none => { it with removed := true }

/-- Modelled from the spec: `sync() -> {added, updated, removed counts}`
(spec.md §4.2). -/
def syncStore (store : List StoreItem) (remote : List (ℕ × FileAttrs)) :
    List StoreItem × SyncCounts :=
  let newItems := (remote.filter (fun r =>
      !(store.any (fun it => decide (it.itemId = r.1))))).map
    (fun r => ⟨r.1, r.2, false⟩)
  (store.map (applyRemote remote) ++ newItems,
    ⟨newItems.length,
      store.countP (fun it =>
        match remoteLookup remote it.itemId with
        | some a => decide (¬(it.attrs = a ∧ it.removed = false))
        | none => false),
      store.countP (fun it =>
        (remoteLookup remote it.itemId).isNone && !it.removed)⟩)

/-- A store item agrees with the remote inventory: attributes match and the
soft-delete mark reflects remote presence. -/
def syncedWith (remote : List (ℕ × FileAttrs)) (it : StoreItem) : Prop :=
  match remoteLookup remote it.itemId with
  | some a => it.attrs = a ∧ it.removed = false
  | none => it.removed = true

theorem applyRemote_itemId (remote : List (ℕ × FileAttrs)) (it : StoreItem) :
    (applyRemote remote it).itemId = it.itemId := by
  rw [applyRemote]
  rcases remoteLookup remote it.itemId with _ | a <;> rfl

theorem remoteLookup_mem (remote : List (ℕ × FileAttrs)) (j : ℕ)
    (a : FileAttrs) (hnd : (remote.map Prod.fst).Nodup)
    (hmem : (j, a) ∈ remote) : remoteLookup remote j = some a := by
  induction remote with
  | nil => simp at hmem
  | cons r rest ih =>
      obtain ⟨k, b⟩ := r
      simp only [List.map_cons, List.nodup_cons] at hnd
      rcases List.mem_cons.mp hmem with h | h
      · cases h
        simp [remoteLookup]
      · have hk : k ≠ j := by
          intro hc
          exact hnd.1 (hc ▸ List.mem_map.mpr ⟨(j, a), h, rfl⟩)
        rw [remoteLookup, if_neg hk]
        exact ih hnd.2 h

theorem applyRemote_synced (remote : List (ℕ × FileAttrs)) (it : StoreItem)
    (h : syncedWith remote it) : applyRemote remote it = it := by
  rcases hl : remoteLookup remote it.itemId with _ | a
  · simp only [syncedWith, hl] at h
    obtain ⟨i, at1, rm⟩ := it
    simp only at h hl
    simp [applyRemote, hl, h]
  · simp only [syncedWith, hl] at h
    obtain ⟨i, at1, rm⟩ := it
    simp only at h hl
    simp [applyRemote, hl, h.1, h.2]

theorem syncStore_synced (store : List StoreItem)
    (remote : List (ℕ × FileAttrs)) (hnd : (remote.map Prod.fst).Nodup) :
    ∀ it ∈ (syncStore store remote).1, syncedWith remote it := by
  intro it hit
  rcases List.mem_append.mp hit with h | h
  · rw [List.mem_map] at h
    obtain ⟨orig, _, hmap⟩ := h
    subst hmap
    rcases hl : remoteLookup remote orig.itemId with _ | a
    · simp [syncedWith, applyRemote, hl]
    · simp [syncedWith, applyRemote, hl]
  · rw [List.mem_map] at h
    obtain ⟨r, hr, hmk⟩ := h
    subst hmk
    have hr' : (r.1, r.2) ∈ remote := by
      have := List.mem_of_mem_filter hr
      simpa using this
    have hl := remoteLookup_mem remote r.1 r.2 hnd hr'
    simp [syncedWith, hl]

theorem syncStore_covered (store : List StoreItem)
    (remote : List (ℕ × FileAttrs)) :
    ∀ r ∈ remote, ∃ it ∈ (syncStore store remote).1, it.itemId = r.1 := by
  intro r hr
  by_cases hs : store.any (fun it => decide (it.itemId = r.1)) = true
  · obtain ⟨it, hit, hid⟩ := List.any_eq_true.mp hs
    refine ⟨applyRemote remote it, ?_, ?_⟩
    · exact List.mem_append_left _ (List.mem_map.mpr ⟨it, hit, rfl⟩)
    · rw [applyRemote_itemId]
      exact decide_eq_true_eq.mp hid
  · have hmemf : r ∈ remote.filter (fun r =>
        !(store.any (fun it => decide (it.itemId = r.1)))) := by
      rw [List.mem_filter]
      exact ⟨hr, by simp [hs]⟩
    exact ⟨⟨r.1, r.2, false⟩,
      List.mem_append_right _ (List.mem_map.mpr ⟨r, hmemf, rfl⟩), rfl⟩

theorem syncStore_stable (st : List StoreItem)
    (remote : List (ℕ × FileAttrs))
    (hsync : ∀ it ∈ st, syncedWith remote it)
    (hcov : ∀ r ∈ remote, ∃ it ∈ st, it.itemId = r.1) :
    syncStore st remote = (st, ⟨0, 0, 0⟩) := by
  have hfilter : remote.filter (fun r =>
      !(st.any (fun it => decide (it.itemId = r.1)))) = [] := by
    rw [List.filter_eq_nil_iff]
    intro r hr
    obtain ⟨it, hit, hid⟩ := hcov r hr
    have hany : st.any (fun it => decide (it.itemId = r.1)) = true :=
      List.any_eq_true.mpr ⟨it, hit, decide_eq_true hid⟩
    simp [hany]
  have hmap : st.map (applyRemote remote) = st := by
    have hcongr : st.map (applyRemote remote) = st.map id :=
      List.map_congr_left
        (fun it hit => applyRemote_synced remote it (hsync it hit))
    rw [hcongr, List.map_id]
  have hupd : st.countP (fun it =>
      match remoteLookup remote it.itemId with
      | some a => decide (¬(it.attrs = a ∧ it.removed = false))
      | none => false) = 0 := by
    rw [List.countP_eq_zero]
    intro it hit
    have h := hsync it hit
    rcases hl : remoteLookup remote it.itemId with _ | a
    · simp [hl]
    · simp only [syncedWith, hl] at h
      simp [hl, h.1, h.2]
  have hrem : st.countP (fun it =>
      (remoteLookup remote it.itemId).isNone && !it.removed) = 0 := by
    rw [List.countP_eq_zero]
    intro it hit
    have h := hsync it hit
    rcases hl : remoteLookup remote it.itemId with _ | a
    · simp only [syncedWith, hl] at h
      simp [hl, h]
    · simp [hl]
  rw [syncStore]
  simp only [hfilter, hmap, hupd, hrem, List.map_nil, List.append_nil,
    List.length_nil]

/-- Claim C7 (spec-modelled): library sync is idempotent — for every local
store and remote inventory (with distinct remote identifiers), running
`sync()` a second time with no external changes reports added = 0,
updated = 0, removed = 0 and leaves the store exactly as the first run left
it. -/
theorem syncIdempotent_claim :
    ∀ (store : List StoreItem) (remote : List (ℕ × FileAttrs)),
      (remote.map Prod.fst).Nodup →
      syncStore (syncStore store remote).1 remote =
        ((syncStore store remote).1, ⟨0, 0, 0⟩) := by
  intro store remote hnd
  exact syncStore_stable _ remote (syncStore_synced store remote hnd)
    (syncStore_covered store remote)

/-- Witness for C7 at a concrete store and remote inventory: one item to
update, one to add, one to soft-delete. -/
theorem syncIdempotent_claim_witness :
    syncStore (syncStore
        [⟨1, ⟨700, "h264"⟩, false⟩, ⟨2, ⟨900, "mpeg2"⟩, false⟩]
        [(1, ⟨800, "h265"⟩), (3, ⟨500, "av1"⟩)]).1
      [(1, ⟨800, "h265"⟩), (3, ⟨500, "av1"⟩)] =
      ((syncStore
        [⟨1, ⟨700, "h264"⟩, false⟩, ⟨2, ⟨900, "mpeg2"⟩, false⟩]
        [(1, ⟨800, "h265"⟩), (3, ⟨500, "av1"⟩)]).1, ⟨0, 0, 0⟩) :=
  syncIdempotent_claim
    [⟨1, ⟨700, "h264"⟩, false⟩, ⟨2, ⟨900, "mpeg2"⟩, false⟩]
    [(1, ⟨800, "h265"⟩), (3, ⟨500, "av1"⟩)] (by decide)

/-! ## Bad-Item Scorer (C8)

Modelled from the spec (spec.md §4.6): BadItemScore is a weighted combination
of external ratings, age and watch activity; protected items (user-requested,
cult classic) are excluded from bad consideration entirely, not merely
down-weighted. -/

/-- A LibraryItem as the scorer sees it: the rating and activity signals and
the protection flag produced by the Cross-Reference Matcher. -/
structure RatedItem where
  itemId : ℕ
  rating : ℚ
  watchCount : ℕ
  ageDays : ℕ
  isProtected : Bool
deriving DecidableEq, Repr

/-- Modelled from the spec: the heuristic badness score — low external
rating, no watch activity and age raise it (weights qualitative in the
source material, spec.md §9). -/
def badItemScore (it : RatedItem) : ℚ :=
  (10 - it.rating) + (if it.watchCount = 0 then 2 else 0) +
    (it.ageDays : ℚ) / 365

/-- Modelled from the spec: the removal-candidate output — unprotected items
whose badness score reaches the threshold; protected items are filtered out
before scoring is consulted. -/
def removalCandidates (threshold : ℚ) (items : List RatedItem) :
    List RatedItem :=
  (items.filter (fun it => !it.isProtected)).filter
    (fun it => threshold ≤ badItemScore it)

/-- Claim C8 (spec-modelled): an item carrying a protection flag never
appears in the removal-candidate output, for every threshold, every library
and every rating value the item may carry — exclusion does not depend on the
score. -/
theorem protectedExcluded_claim :
    ∀ (threshold : ℚ) (items : List RatedItem) (it : RatedItem),
      it.isProtected = true → it ∉ removalCandidates threshold items := by
  intro threshold items it hprot hmem
  have h1 := List.mem_of_mem_filter hmem
  have h2 := (List.mem_filter.mp h1).2
  rw [hprot] at h2
  simp at h2

/-- Witness for C8: a protected item with the worst possible signals (rating
0, never watched, very old) is not produced at threshold 0. -/
theorem protectedExcluded_claim_witness :
    (⟨1, 0, 0, 10000, true⟩ : RatedItem) ∉
      removalCandidates 0
        [⟨1, 0, 0, 10000, true⟩, ⟨2, 0, 0, 10000, false⟩] :=
  protectedExcluded_claim 0
    [⟨1, 0, 0, 10000, true⟩, ⟨2, 0, 0, 10000, false⟩]
    ⟨1, 0, 0, 10000, true⟩ rfl

end Butlarr
